import Mathlib

/-!
Shallow embedding of the command palette widget in src/src/CommandPalette.vue.

The component keeps four pieces of reactive state (visible, searchQuery,
selectedIndex, isKeyboardNavigation), derives a grouped view and a flattened
view of the caller-supplied command list, and mutates the state in response
to keyboard, pointer and hotkey events.  Every definition below is a direct
translation of the corresponding source function; JavaScript-specific
semantics that matter here are embedded explicitly:

  - a command descriptor is a JS object, so it carries a reference identity
    (field `ref`) besides its data fields; `Array.prototype.indexOf` compares
    with `===`, which on objects is reference equality;
  - `command.category || 'Other'` treats the empty string as falsy, so both
    a missing category and an empty-string category default to "Other";
  - the groups record is a plain JS object, and `Object.keys` enumerates
    array-index-like keys (canonical decimal numerals below 2^32 - 1) first,
    in ascending numeric order, followed by the remaining string keys in
    insertion (first-seen) order;
  - `Math.min(selectedIndex + 1, flattened.length - 1)` is computed on JS
    numbers, so with an empty list the bound is -1; selectedIndex is
    therefore modelled as an integer, not a natural number.
-/

/-- CommandItem from the source: id, title, optional description, icon and
category, and a zero-argument action.  `ref` models the JS object reference
identity (two distinct objects have distinct `ref` even when their data
fields coincide); `action` is an opaque token naming the handler, recorded
when the widget invokes it. -/
structure CommandItem where
  ref : Nat
  id : String
  title : String
  description : Option String
  icon : Option String
  category : Option String
  action : Nat
deriving DecidableEq, Repr

/-- The reactive state of the widget: the visibility model, the search query,
the selected index and the keyboard-navigation flag.  selectedIndex is an
integer because the source clamps with `Math.min(i + 1, length - 1)`, which
reaches -1 on an empty list. -/
structure PaletteState where
  visible : Bool
  searchQuery : String
  selectedIndex : Int
  isKeyboardNavigation : Bool
deriving DecidableEq, Repr

/-- The fields of a DOM KeyboardEvent that the source reads. -/
structure KeyEvent where
  key : String
  metaKey : Bool
  ctrlKey : Bool
deriving DecidableEq, Repr

/-- Result of one event-handler step: the post state plus the list of action
tokens the handler invoked, in order. -/
structure StepResult where
  state : PaletteState
  invoked : List Nat
deriving DecidableEq, Repr

/-- The category key used in groupedCommands: `command.category || 'Other'`.
JS `||` takes the right operand on any falsy left operand, so a missing
category and an empty-string category both become "Other". -/
def categoryName (c : CommandItem) : String :=
  match c.category with
  | none => "Other"
  | some s => if s = "" then "Other" else s

/-- One step of building the groups record: `groups[category].push(command)`,
creating the key at the end of the record when it is new.  The record is
modelled as an association list in key-insertion order. -/
def insertCommand (groups : List (String × List CommandItem)) (cat : String)
    (c : CommandItem) : List (String × List CommandItem) :=
  match groups with
  | [] => [(cat, [c])]
  | (k, v) :: rest =>
    if k = cat then (k, v ++ [c]) :: rest else (k, v) :: insertCommand rest cat c

/-- The body of the groupedCommands computed: fold the command list into the
groups record with `forEach`. -/
def buildGroups (cmds : List CommandItem) : List (String × List CommandItem) :=
  cmds.foldl (fun g c => insertCommand g (categoryName c) c) []

/-- Reading `groups[k]` from the record; an absent key yields the empty list
(the source guards with `if (groups[category])`, and a present key always
holds a non-empty array). -/
def lookupGroup (groups : List (String × List CommandItem)) (k : String) :
    List CommandItem :=
  match groups with
  | [] => []
  | (k2, v) :: rest => if k2 = k then v else lookupGroup rest k

/-- Whether a character is a decimal digit. -/
def isDigit (c : Char) : Bool :=
  48 ≤ c.toNat && c.toNat ≤ 57

/-- Numeric value of a decimal digit character. -/
def digitVal (c : Char) : Nat :=
  c.toNat - 48

/-- Value of a run of decimal digit characters. -/
def parseDigits (l : List Char) : Nat :=
  l.foldl (fun a c => a * 10 + digitVal c) 0

/-- Whether a character list is the canonical decimal numeral of a natural
number: non-empty, all digits, and no leading zero except for "0" itself. -/
def isCanonicalNumeral (l : List Char) : Bool :=
  match l with
  | [] => false
  | [c] => isDigit c
  | c :: rest => isDigit c && c.toNat ≠ 48 && rest.all isDigit

/-- Whether a string is a JS array index: the canonical decimal numeral of an
integer n with 0 ≤ n < 2^32 - 1.  Such keys are enumerated before all other
string keys by `Object.keys`. -/
def isArrayIndex (s : String) : Bool :=
  isCanonicalNumeral s.data && parseDigits s.data < 4294967295

/-- Numeric value of an array-index key, used to order them. -/
def keyVal (s : String) : Nat :=
  parseDigits s.data

/-- Insertion into an ascending run of array-index keys. -/
def insertSorted (x : String) : List String → List String
  | [] => [x]
  | y :: ys => if keyVal x ≤ keyVal y then x :: y :: ys else y :: insertSorted x ys

/-- Ascending sort of array-index keys by numeric value. -/
def sortKeys : List String → List String
  | [] => []
  | x :: xs => insertSorted x (sortKeys xs)

/-- The key order produced by `Object.keys` on a record whose keys were
created in the given order: array-index keys first, ascending numerically,
then the remaining keys in insertion order. -/
def jsKeys (ks : List String) : List String :=
  sortKeys (ks.filter (fun k => isArrayIndex k)) ++
    ks.filter (fun k => !isArrayIndex k)

/-- The groupedCommands computed, as the template iterates it: the pairs of
the groups record in `Object.keys` enumeration order. -/
def groupedCommands (cmds : List CommandItem) :
    List (String × List CommandItem) :=
  (jsKeys ((buildGroups cmds).map Prod.fst)).map
    (fun k => (k, lookupGroup (buildGroups cmds) k))

/-- The flattenedCommands computed: `Object.keys(groups).forEach(category =>
result.push(...groups[category]))`. -/
def flattenedCommands (cmds : List CommandItem) : List CommandItem :=
  (groupedCommands cmds).foldl (fun r p => r ++ p.2) []

/-- closePanel from the source: hide the panel and reset query, index and the
keyboard-navigation flag. -/
def closePanel (s : PaletteState) : PaletteState :=
  { s with visible := false, searchQuery := "", selectedIndex := 0,
           isKeyboardNavigation := false }

/-- openPanel from the source: show the panel and reset query, index and the
keyboard-navigation flag (the focus call it also schedules is not state). -/
def openPanel (s : PaletteState) : PaletteState :=
  { s with visible := true, searchQuery := "", selectedIndex := 0,
           isKeyboardNavigation := false }

/-- executeCommand from the source: it only calls `command.action()`; no
state field is touched. -/
def executeCommand (s : PaletteState) (c : CommandItem) : StepResult :=
  { state := s, invoked := [c.action] }

/-- JS array subscript `l[i]`: `undefined` when i is negative or past the
end, modelled as `none`. -/
def jsIndex (l : List CommandItem) (i : Int) : Option CommandItem :=
  if 0 ≤ i then l.get? i.toNat else none

/-- Auxiliary to jsIndexOf, carrying the running position. -/
def indexOfRefAux (l : List CommandItem) (r : Nat) (i : Nat) : Int :=
  match l with
  | [] => -1
  | c :: rest => if c.ref = r then (i : Int) else indexOfRefAux rest r (i + 1)

/-- `Array.prototype.indexOf` on the flattened list: strict equality `===`
on objects is reference equality, so the search compares `ref` fields and
returns the first matching position, or -1. -/
def jsIndexOf (l : List CommandItem) (c : CommandItem) : Int :=
  indexOfRefAux l c.ref 0

/-- handleMouseEnter from the source: ignored while keyboard navigation is in
flight, otherwise sets selectedIndex to the indexOf lookup of the hovered
command in the flattened list. -/
def handleMouseEnter (cmds : List CommandItem) (s : PaletteState)
    (c : CommandItem) : PaletteState :=
  if s.isKeyboardNavigation then s
  else { s with selectedIndex := jsIndexOf (flattenedCommands cmds) c }

/-- handleKeydown from the source, the panel-local key handler.  Returns the
synchronous post state (the delayed setTimeout that later clears the
keyboard-navigation flag is a separate future event, not part of this step)
together with the actions invoked.  Keys other than Escape, ArrowDown,
ArrowUp and Enter fall through the switch unchanged. -/
def handleKeydown (cmds : List CommandItem) (s : PaletteState) (e : KeyEvent) :
    StepResult :=
  if s.visible = false then { state := s, invoked := [] }
  else if e.key = "Escape" then { state := closePanel s, invoked := [] }
  else if e.key = "ArrowDown" then
    { state :=
        { s with
          isKeyboardNavigation := true
          selectedIndex :=
            min (s.selectedIndex + 1)
              (((flattenedCommands cmds).length : Int) - 1) },
      invoked := [] }
  else if e.key = "ArrowUp" then
    { state :=
        { s with
          isKeyboardNavigation := true
          selectedIndex := max (s.selectedIndex - 1) 0 },
      invoked := [] }
  else if e.key = "Enter" then
    match jsIndex (flattenedCommands cmds) s.selectedIndex with
    | some c => executeCommand s c
    | none => { state := s, invoked := [] }
  else { state := s, invoked := [] }

/-- handleGlobalKeydown from the source: on (meta or ctrl) plus the key "k"
it closes the panel when visible and opens it otherwise; any other event is
ignored. -/
def handleGlobalKeydown (s : PaletteState) (e : KeyEvent) : PaletteState :=
  if (e.metaKey || e.ctrlKey) && e.key = "k" then
    if s.visible then closePanel s else openPanel s
  else s

/-- The watcher on searchQuery: a Vue watcher fires exactly when the ref
value actually changes, and the callback resets selectedIndex to 0.  This
models one edit of the search input: the v-model write followed by the
watcher. -/
def setSearchQuery (s : PaletteState) (q : String) : PaletteState :=
  if q = s.searchQuery then s
  else { s with searchQuery := q, selectedIndex := 0 }

/-- Folding a list of key events through handleKeydown, ignoring invoked
actions (navigation keys invoke none). -/
def applyKeys (cmds : List CommandItem) (s : PaletteState)
    (es : List KeyEvent) : PaletteState :=
  es.foldl (fun st e => (handleKeydown cmds st e).state) s

/-- The component instance: the commands prop together with the reactive
state.  The grouped and flattened computeds read only the prop. -/
structure Component where
  commands : List CommandItem
  state : PaletteState

/-- The groupedCommands computed of a component instance. -/
def Component.grouped (cp : Component) : List (String × List CommandItem) :=
  groupedCommands cp.commands

/-- The flattenedCommands computed of a component instance. -/
def Component.flattened (cp : Component) : List CommandItem :=
  flattenedCommands cp.commands

/-- Specification-side definition (for the ordering claims): the first-seen
sublist of a list of keys, i.e. the keys with later duplicates dropped,
accumulated left to right. -/
def specFirstSeen (acc : List String) : List String → List String
  | [] => acc
  | k :: ks =>
    if k ∈ acc then specFirstSeen acc ks else specFirstSeen (acc ++ [k]) ks

/-! Concrete fixtures used by witnesses and counterexamples. -/

/-- A command with no category and action token 7. -/
def cmdA : CommandItem := ⟨0, "a", "a", none, none, none, 7⟩

/-- A second command with no category and action token 8. -/
def cmdB : CommandItem := ⟨1, "b", "b", none, none, none, 8⟩

/-- The state right after the panel opened. -/
def stateOpen : PaletteState := ⟨true, "", 0, false⟩

/-- An Enter keydown. -/
def evEnter : KeyEvent := ⟨"Enter", false, false⟩

/-- An Escape keydown. -/
def evEscape : KeyEvent := ⟨"Escape", false, false⟩

/-- An ArrowDown keydown. -/
def evArrowDown : KeyEvent := ⟨"ArrowDown", false, false⟩

/-- An ArrowUp keydown. -/
def evArrowUp : KeyEvent := ⟨"ArrowUp", false, false⟩

/-- The global hotkey: meta held plus the key "k". -/
def evHotkey : KeyEvent := ⟨"k", true, false⟩

/-- Claim C1 (counterexample): pressing Enter on a one-command list invokes
the action, but the post state still has visible = true; the post state does
not satisfy the closed-panel condition the claim asserts (visible = false
with query and index reset). -/
theorem enter_leaves_panel_open_cex :
    (handleKeydown [cmdA] stateOpen evEnter).invoked = [cmdA.action] ∧
    (handleKeydown [cmdA] stateOpen evEnter).state.visible = true ∧
    ¬((handleKeydown [cmdA] stateOpen evEnter).state.visible = false ∧
      (handleKeydown [cmdA] stateOpen evEnter).state.searchQuery = "" ∧
      (handleKeydown [cmdA] stateOpen evEnter).state.selectedIndex = 0) := by
  decide

/-- Claim C1 (amended): pressing Enter while the panel is open, with the
selected index denoting a command of the flattened list, invokes exactly the
action of that command and leaves the whole widget state unchanged; in
particular the panel is not closed and no reset of query or index occurs. -/
theorem enter_executes_without_closing (cmds : List CommandItem)
    (s : PaletteState) (e : KeyEvent) (c : CommandItem)
    (hvis : s.visible = true) (hkey : e.key = "Enter")
    (hsel : jsIndex (flattenedCommands cmds) s.selectedIndex = some c) :
    (handleKeydown cmds s e).state = s ∧
    (handleKeydown cmds s e).invoked = [c.action] := by
  simp [handleKeydown, hvis, hkey, hsel, executeCommand]

/-- Claim C1 (witness): the amended theorem applied to a concrete
one-command list. -/
theorem enter_executes_without_closing_witness :
    stateOpen.visible = true ∧
    jsIndex (flattenedCommands [cmdA]) stateOpen.selectedIndex = some cmdA ∧
    (handleKeydown [cmdA] stateOpen evEnter).state = stateOpen ∧
    (handleKeydown [cmdA] stateOpen evEnter).invoked = [cmdA.action] :=
  ⟨by decide, by decide,
    (enter_executes_without_closing [cmdA] stateOpen evEnter cmdA (by decide)
      rfl (by decide)).1,
    (enter_executes_without_closing [cmdA] stateOpen evEnter cmdA (by decide)
      rfl (by decide)).2⟩

/-- One navigation step preserves visibility and keeps the selected index in
range, on a non-empty flattened list. -/
theorem nav_step_bounds (cmds : List CommandItem) (s : PaletteState)
    (e : KeyEvent) (hvis : s.visible = true)
    (hn : 0 < (flattenedCommands cmds).length)
    (h0 : 0 ≤ s.selectedIndex)
    (h1 : s.selectedIndex ≤ ((flattenedCommands cmds).length : Int) - 1)
    (hk : e.key = "ArrowDown" ∨ e.key = "ArrowUp") :
    (handleKeydown cmds s e).state.visible = true ∧
    0 ≤ (handleKeydown cmds s e).state.selectedIndex ∧
    (handleKeydown cmds s e).state.selectedIndex ≤
      ((flattenedCommands cmds).length : Int) - 1 := by
  rcases hk with hk | hk
  · refine ⟨by simp [handleKeydown, hvis, hk], ?_, ?_⟩ <;>
      simp [handleKeydown, hvis, hk] <;> omega
  · refine ⟨by simp [handleKeydown, hvis, hk], ?_, ?_⟩ <;>
      simp [handleKeydown, hvis, hk] <;> omega

/-- Claim C2 (counterexample): on the empty command list, one ArrowDown from
the freshly opened state drives selectedIndex to -1, outside [0, count-1]. -/
theorem arrow_nav_escapes_range_cex :
    stateOpen.visible = true ∧
    (applyKeys [] stateOpen [evArrowDown]).selectedIndex = -1 ∧
    ¬(0 ≤ (applyKeys [] stateOpen [evArrowDown]).selectedIndex) := by
  decide

/-- Claim C2 (amended): on a NON-EMPTY flattened list, every sequence of
ArrowDown and ArrowUp keydown events while open keeps selectedIndex inside
[0, count-1]; on the empty list ArrowDown instead reaches -1. -/
theorem arrow_nav_clamped (cmds : List CommandItem) (s : PaletteState)
    (es : List KeyEvent) (hvis : s.visible = true)
    (hn : 0 < (flattenedCommands cmds).length)
    (h0 : 0 ≤ s.selectedIndex)
    (h1 : s.selectedIndex ≤ ((flattenedCommands cmds).length : Int) - 1)
    (hks : ∀ e ∈ es, e.key = "ArrowDown" ∨ e.key = "ArrowUp") :
    0 ≤ (applyKeys cmds s es).selectedIndex ∧
    (applyKeys cmds s es).selectedIndex ≤
      ((flattenedCommands cmds).length : Int) - 1 := by
  induction es generalizing s with
  | nil => exact ⟨h0, h1⟩
  | cons e rest ih =>
    have hstep := nav_step_bounds cmds s e hvis hn h0 h1 (hks e (by simp))
    have hfold : applyKeys cmds s (e :: rest) =
        applyKeys cmds (handleKeydown cmds s e).state rest := by
      simp [applyKeys]
    rw [hfold]
    exact ih _ hstep.1 hstep.2.1 hstep.2.2
      (fun e2 he2 => hks e2 (List.mem_cons_of_mem _ he2))

/-- Claim C2 (witness): the amended theorem applied to a two-command list
and the sequence ArrowDown, ArrowDown, ArrowUp. -/
theorem arrow_nav_clamped_witness :
    0 ≤ (applyKeys [cmdA, cmdB] stateOpen
      [evArrowDown, evArrowDown, evArrowUp]).selectedIndex ∧
    (applyKeys [cmdA, cmdB] stateOpen
      [evArrowDown, evArrowDown, evArrowUp]).selectedIndex ≤
      ((flattenedCommands [cmdA, cmdB]).length : Int) - 1 :=
  arrow_nav_clamped [cmdA, cmdB] stateOpen
    [evArrowDown, evArrowDown, evArrowUp]
    (by decide) (by decide) (by decide) (by decide) (by decide)

/-- Claim C3 (counterexample): on the empty command list, ArrowDown while
open does change the selection state: selectedIndex moves from 0 to -1 and
the keyboard-navigation flag is raised. -/
theorem empty_list_arrow_changes_state_cex :
    flattenedCommands [] = [] ∧
    (handleKeydown [] stateOpen evArrowDown).state.selectedIndex = -1 ∧
    stateOpen.selectedIndex = 0 ∧
    ¬((handleKeydown [] stateOpen evArrowDown).state = stateOpen) := by
  decide

/-- Claim C3 (amended): with an empty flattened list, Enter is a strict
no-op (state unchanged, no action invoked), but ArrowDown and ArrowUp still
navigate: each raises the keyboard-navigation flag, ArrowDown sets
selectedIndex to min(selectedIndex + 1, -1) and ArrowUp clamps it at 0 from
below; no key invokes any command action. -/
theorem empty_list_keydown_amended (cmds : List CommandItem)
    (s : PaletteState) (e1 e2 e3 : KeyEvent)
    (hfl : flattenedCommands cmds = []) (hvis : s.visible = true)
    (h1 : e1.key = "Enter") (h2 : e2.key = "ArrowDown")
    (h3 : e3.key = "ArrowUp") :
    handleKeydown cmds s e1 = { state := s, invoked := [] } ∧
    handleKeydown cmds s e2 =
      { state :=
          { s with
            isKeyboardNavigation := true
            selectedIndex := min (s.selectedIndex + 1) (-1) },
        invoked := [] } ∧
    handleKeydown cmds s e3 =
      { state :=
          { s with
            isKeyboardNavigation := true
            selectedIndex := max (s.selectedIndex - 1) 0 },
        invoked := [] } := by
  refine ⟨?_, ?_, ?_⟩
  · simp [handleKeydown, hvis, h1, hfl, jsIndex]
  · simp [handleKeydown, hvis, h2, hfl]
  · simp [handleKeydown, hvis, h3]

/-- Claim C3 (witness): the amended theorem applied to the empty list and
the freshly opened state. -/
theorem empty_list_keydown_amended_witness :
    flattenedCommands [] = [] ∧
    (handleKeydown [] stateOpen evEnter = { state := stateOpen, invoked := [] } ∧
     handleKeydown [] stateOpen evArrowDown =
       { state :=
           { stateOpen with
             isKeyboardNavigation := true
             selectedIndex := min (stateOpen.selectedIndex + 1) (-1) },
         invoked := [] } ∧
     handleKeydown [] stateOpen evArrowUp =
       { state :=
           { stateOpen with
             isKeyboardNavigation := true
             selectedIndex := max (stateOpen.selectedIndex - 1) 0 },
         invoked := [] }) :=
  ⟨by decide,
    empty_list_keydown_amended [] stateOpen evEnter evArrowDown evArrowUp
      (by decide) (by decide) rfl rfl rfl⟩

/-- Claim C4: openPanel and closePanel, and every route into them, reset the
query to "" and the selected index to 0; the global hotkey (meta or ctrl
with the key "k") routes into one of the two, and Escape while open routes
into closePanel (the overlay click handler is closePanel itself). -/
theorem open_close_resets (s : PaletteState) (cmds : List CommandItem)
    (eHot eEsc : KeyEvent)
    (hmod : (eHot.metaKey || eHot.ctrlKey) = true) (hk : eHot.key = "k")
    (hesc : eEsc.key = "Escape") :
    ((openPanel s).searchQuery = "" ∧ (openPanel s).selectedIndex = 0 ∧
      (openPanel s).visible = true) ∧
    ((closePanel s).searchQuery = "" ∧ (closePanel s).selectedIndex = 0 ∧
      (closePanel s).visible = false) ∧
    ((handleGlobalKeydown s eHot).searchQuery = "" ∧
      (handleGlobalKeydown s eHot).selectedIndex = 0) ∧
    (s.visible = true → (handleKeydown cmds s eEsc).state = closePanel s) := by
  refine ⟨⟨rfl, rfl, rfl⟩, ⟨rfl, rfl, rfl⟩, ?_, ?_⟩
  · cases hv : s.visible <;>
      simp [handleGlobalKeydown, hmod, hk, hv, openPanel, closePanel]
  · intro hvis
    simp [handleKeydown, hvis, hesc]

/-- Claim C4 (witness): the theorem applied to the freshly opened state, the
hotkey event and the Escape event. -/
theorem open_close_resets_witness :
    ((openPanel stateOpen).searchQuery = "" ∧
      (openPanel stateOpen).selectedIndex = 0 ∧
      (openPanel stateOpen).visible = true) ∧
    ((closePanel stateOpen).searchQuery = "" ∧
      (closePanel stateOpen).selectedIndex = 0 ∧
      (closePanel stateOpen).visible = false) ∧
    ((handleGlobalKeydown stateOpen evHotkey).searchQuery = "" ∧
      (handleGlobalKeydown stateOpen evHotkey).selectedIndex = 0) ∧
    (stateOpen.visible = true →
      (handleKeydown [cmdA] stateOpen evEscape).state = closePanel stateOpen) :=
  open_close_resets stateOpen [cmdA] evHotkey evEscape rfl rfl rfl

/-- Claim C6: the global hotkey handler acts exactly when meta or ctrl is
held together with the key "k", in which case it closes the panel when
visible and opens it when not, and it is the identity on every other event;
consequently pressing the same event twice in a row always returns the
visibility to its original value. -/
theorem hotkey_toggles (s : PaletteState) (e : KeyEvent) :
    handleGlobalKeydown s e =
      (if ((e.metaKey || e.ctrlKey) && e.key = "k" : Bool) = true then
        (if s.visible = true then closePanel s else openPanel s)
      else s) ∧
    (handleGlobalKeydown (handleGlobalKeydown s e) e).visible = s.visible := by
  constructor
  · rfl
  · by_cases hc : ((e.metaKey || e.ctrlKey) && e.key = "k" : Bool) = true
    · cases hv : s.visible <;>
        simp [handleGlobalKeydown, hc, hv, closePanel, openPanel]
    · simp [handleGlobalKeydown, hc]

/-- Claim C7: the grouped mapping and the flattened list of a component
instance depend only on the commands prop: two instances with the same
commands and arbitrarily different queries have identical views. -/
theorem views_independent_of_query (cp1 cp2 : Component)
    (hc : cp1.commands = cp2.commands)
    (hq : cp1.state.searchQuery ≠ cp2.state.searchQuery) :
    cp1.grouped = cp2.grouped ∧ cp1.flattened = cp2.flattened := by
  simp [Component.grouped, Component.flattened, hc]

/-- A component instance with an empty query. -/
def compA : Component := ⟨[cmdA], stateOpen⟩

/-- A component instance with the same commands and a different query. -/
def compB : Component := ⟨[cmdA], ⟨true, "x", 0, false⟩⟩

/-- Claim C7 (witness): the theorem applied to two concrete instances that
differ only in the query. -/
theorem views_independent_of_query_witness :
    compA.state.searchQuery ≠ compB.state.searchQuery ∧
    compA.grouped = compB.grouped ∧ compA.flattened = compB.flattened :=
  ⟨by decide, views_independent_of_query compA compB rfl (by decide)⟩

/-- Claim C9: writing a query value different from the current one resets
selectedIndex to 0 (the searchQuery watcher), stores the new query, and does
not touch visibility. -/
theorem query_change_resets_index (s : PaletteState) (q : String)
    (hq : q ≠ s.searchQuery) :
    (setSearchQuery s q).selectedIndex = 0 ∧
    (setSearchQuery s q).searchQuery = q ∧
    (setSearchQuery s q).visible = s.visible := by
  simp [setSearchQuery, hq]

/-- Claim C9 (witness): the theorem applied to a state with a nonzero
selected index and a fresh query value. -/
theorem query_change_resets_index_witness :
    "x" ≠ (PaletteState.mk true "" 3 false).searchQuery ∧
    (setSearchQuery (PaletteState.mk true "" 3 false) "x").selectedIndex = 0 ∧
    (setSearchQuery (PaletteState.mk true "" 3 false) "x").searchQuery = "x" ∧
    (setSearchQuery (PaletteState.mk true "" 3 false) "x").visible =
      (PaletteState.mk true "" 3 false).visible :=
  ⟨by decide, query_change_resets_index (PaletteState.mk true "" 3 false) "x"
    (by decide)⟩

/-- Claim C10: invoking a command leaves every widget state field unchanged
and calls only the action of that command: executeCommand (the click
handler) returns the state untouched with exactly that one action invoked,
and the Enter path through handleKeydown does the same for the selected
command. -/
theorem execute_command_frame (cmds : List CommandItem) (s : PaletteState)
    (e : KeyEvent) (c : CommandItem)
    (hkey : e.key = "Enter") (hvis : s.visible = true)
    (hsel : jsIndex (flattenedCommands cmds) s.selectedIndex = some c) :
    executeCommand s c = { state := s, invoked := [c.action] } ∧
    handleKeydown cmds s e = { state := s, invoked := [c.action] } := by
  constructor
  · rfl
  · simp [handleKeydown, hvis, hkey, hsel, executeCommand]

/-- A state with the second entry selected. -/
def stateSel1 : PaletteState := ⟨true, "", 1, false⟩

/-- Claim C10 (witness): the theorem applied to a two-command list with the
second command selected. -/
theorem execute_command_frame_witness :
    jsIndex (flattenedCommands [cmdA, cmdB]) stateSel1.selectedIndex =
      some cmdB ∧
    executeCommand stateSel1 cmdB = { state := stateSel1, invoked := [cmdB.action] } ∧
    handleKeydown [cmdA, cmdB] stateSel1 evEnter =
      { state := stateSel1, invoked := [cmdB.action] } :=
  ⟨by decide,
    (execute_command_frame [cmdA, cmdB] stateSel1 evEnter cmdB rfl (by decide)
      (by decide)).1,
    (execute_command_frame [cmdA, cmdB] stateSel1 evEnter cmdB rfl (by decide)
      (by decide)).2⟩

/-- Reading a key after one insertion: the inserted command lands at the end
of its own category and no other category changes. -/
theorem lookupGroup_insertCommand (g : List (String × List CommandItem))
    (cat : String) (c : CommandItem) (k : String) :
    lookupGroup (insertCommand g cat c) k =
      if k = cat then lookupGroup g k ++ [c] else lookupGroup g k := by
  induction g with
  | nil =>
    rcases eq_or_ne k cat with h | h
    · subst h; simp [insertCommand, lookupGroup]
    · simp [insertCommand, lookupGroup, h, Ne.symm h]
  | cons p rest ih =>
    obtain ⟨k2, v⟩ := p
    rcases eq_or_ne k2 cat with h2 | h2
    · subst h2
      rcases eq_or_ne k2 k with hk | hk
      · subst hk; simp [insertCommand, lookupGroup]
      · simp [insertCommand, lookupGroup, hk, Ne.symm hk]
    · rcases eq_or_ne k2 k with hk | hk
      · subst hk
        simp [insertCommand, lookupGroup, h2, Ne.symm h2]
      · simp [insertCommand, lookupGroup, h2, hk, ih]

/-- Keys after one insertion: unchanged when the category exists, appended
at the end when it is new. -/
theorem keys_insertCommand (g : List (String × List CommandItem))
    (cat : String) (c : CommandItem) :
    (insertCommand g cat c).map Prod.fst =
      if cat ∈ g.map Prod.fst then g.map Prod.fst
      else g.map Prod.fst ++ [cat] := by
  induction g with
  | nil => simp [insertCommand]
  | cons p rest ih =>
    obtain ⟨k2, v⟩ := p
    rcases eq_or_ne k2 cat with h2 | h2
    · subst h2; simp [insertCommand]
    · by_cases hm : cat ∈ rest.map Prod.fst <;>
        simp [insertCommand, h2, Ne.symm h2, ih, hm]

/-- Reading a key of the record built by folding: initial content followed
by the commands of that category, in input order. -/
theorem lookupGroup_foldl (l : List CommandItem)
    (g : List (String × List CommandItem)) (k : String) :
    lookupGroup (l.foldl (fun g c => insertCommand g (categoryName c) c) g) k =
      lookupGroup g k ++ l.filter (fun c => categoryName c = k) := by
  induction l generalizing g with
  | nil => simp
  | cons c rest ih =>
    simp only [List.foldl_cons]
    rw [ih, lookupGroup_insertCommand]
    rcases eq_or_ne (categoryName c) k with h | h
    · simp [List.filter_cons, h]
    · simp [List.filter_cons, h, Ne.symm h]

/-- The groups record maps every key to exactly the commands of that
category, in input order. -/
theorem lookupGroup_buildGroups (cmds : List CommandItem) (k : String) :
    lookupGroup (buildGroups cmds) k =
      cmds.filter (fun c => categoryName c = k) := by
  simpa [lookupGroup] using lookupGroup_foldl cmds [] k

/-- Keys of the folded record: the accumulated keys extended by the category
names in first-seen order. -/
theorem keys_buildGroups_foldl (l : List CommandItem)
    (g : List (String × List CommandItem)) :
    ((l.foldl (fun g c => insertCommand g (categoryName c) c) g).map Prod.fst) =
      specFirstSeen (g.map Prod.fst) (l.map categoryName) := by
  induction l generalizing g with
  | nil => simp [specFirstSeen]
  | cons c rest ih =>
    simp only [List.foldl_cons, List.map_cons]
    rw [ih, keys_insertCommand]
    by_cases hm : categoryName c ∈ g.map Prod.fst <;> simp [specFirstSeen, hm]

/-- Keys of the groups record are the category names in first-seen order. -/
theorem keys_buildGroups (cmds : List CommandItem) :
    (buildGroups cmds).map Prod.fst =
      specFirstSeen [] (cmds.map categoryName) := by
  simpa using keys_buildGroups_foldl cmds []

/-- The first-seen key list has no duplicates. -/
theorem specFirstSeen_nodup (l : List String) (acc : List String)
    (h : acc.Nodup) : (specFirstSeen acc l).Nodup := by
  induction l generalizing acc with
  | nil => simpa [specFirstSeen]
  | cons k ks ih =>
    by_cases hm : k ∈ acc
    · simpa [specFirstSeen, hm] using ih acc h
    · simp only [specFirstSeen, if_neg hm]
      exact ih _ (by simp [List.nodup_append, h, hm])

/-- Every key of the input list appears among the first-seen keys. -/
theorem mem_specFirstSeen (l : List String) (acc : List String) (k : String)
    (h : k ∈ l ∨ k ∈ acc) : k ∈ specFirstSeen acc l := by
  induction l generalizing acc with
  | nil => simpa [specFirstSeen] using h.resolve_left (by simp)
  | cons k2 ks ih =>
    by_cases hm : k2 ∈ acc
    · simp only [specFirstSeen, if_pos hm]
      apply ih
      rcases h with h | h
      · rcases List.mem_cons.mp h with h | h
        · subst h; exact Or.inr hm
        · exact Or.inl h
      · exact Or.inr h
    · simp only [specFirstSeen, if_neg hm]
      apply ih
      rcases h with h | h
      · rcases List.mem_cons.mp h with h | h
        · subst h; right; simp
        · exact Or.inl h
      · right; simp [h]

/-- The push-append fold equals the flatten of the group bodies. -/
theorem foldl_append_eq_flatten (L : List (String × List CommandItem))
    (init : List CommandItem) :
    L.foldl (fun r p => r ++ p.2) init = init ++ (L.map Prod.snd).flatten := by
  induction L generalizing init with
  | nil => simp
  | cons p rest ih => simp [ih]

/-- The flattened list is the flatten of the per-key lookups in Object.keys
order. -/
theorem flattenedCommands_eq (cmds : List CommandItem) :
    flattenedCommands cmds =
      ((jsKeys ((buildGroups cmds).map Prod.fst)).map
        (fun k => lookupGroup (buildGroups cmds) k)).flatten := by
  simp only [flattenedCommands, foldl_append_eq_flatten, groupedCommands,
    List.map_map, List.nil_append]
  rfl

/-- Sorted insertion permutes to the cons. -/
theorem insertSorted_perm (x : String) (l : List String) :
    List.Perm (insertSorted x l) (x :: l) := by
  induction l with
  | nil => simp [insertSorted]
  | cons y ys ih =>
    simp only [insertSorted]
    by_cases h : keyVal x ≤ keyVal y
    · simp [h]
    · simp only [if_neg h]
      exact (ih.cons y).trans (List.Perm.swap x y ys)

/-- The numeric sort is a permutation. -/
theorem sortKeys_perm (l : List String) : List.Perm (sortKeys l) l := by
  induction l with
  | nil => simp [sortKeys]
  | cons x xs ih =>
    exact (insertSorted_perm x (sortKeys xs)).trans (ih.cons x)

/-- Object.keys enumeration is a permutation of the insertion order. -/
theorem jsKeys_perm (ks : List String) : List.Perm (jsKeys ks) ks := by
  unfold jsKeys
  exact ((sortKeys_perm _).append_right _).trans (List.filter_append_perm _ ks)

/-- Flattening a map over permuted keys permutes the flatten. -/
theorem flatten_map_perm (f : String → List CommandItem)
    (ks1 ks2 : List String) (h : List.Perm ks1 ks2) :
    List.Perm ((ks1.map f).flatten) ((ks2.map f).flatten) := by
  have hh := h.flatMap_right f
  simpa [List.flatMap_def] using hh

/-- Flattening the per-category filters over a duplicate-free covering key
list is a permutation of the underlying command list. -/
theorem flatten_filter_perm (ks : List String) (l : List CommandItem)
    (hnd : ks.Nodup) (hcov : ∀ c ∈ l, categoryName c ∈ ks) :
    List.Perm
      ((ks.map (fun k => l.filter (fun c => categoryName c = k))).flatten)
      l := by
  induction ks generalizing l with
  | nil =>
    have hl : l = [] := by
      cases l with
      | nil => rfl
      | cons c cs => exact absurd (hcov c (by simp)) (by simp)
    subst hl; simp
  | cons k ks ih =>
    simp only [List.map_cons, List.flatten_cons]
    have hnd2 : ks.Nodup := (List.nodup_cons.mp hnd).2
    have hknot : k ∉ ks := (List.nodup_cons.mp hnd).1
    have hcomp : ∀ k2 ∈ ks,
        l.filter (fun c => categoryName c = k2) =
          (l.filter (fun c => !(categoryName c = k))).filter
            (fun c => categoryName c = k2) := by
      intro k2 hk2
      have hne : k2 ≠ k := by rintro rfl; exact hknot hk2
      rw [List.filter_filter]
      apply List.filter_congr
      intro c hc
      by_cases h : categoryName c = k2
      · simp [h, hne]
      · simp [h]
    rw [List.map_congr_left hcomp]
    have hcov2 : ∀ c ∈ l.filter (fun c => !(categoryName c = k)),
        categoryName c ∈ ks := by
      intro c hc
      have hcl := List.mem_filter.mp hc
      rcases List.mem_cons.mp (hcov c hcl.1) with h | h
      · exact absurd h (by simpa using hcl.2)
      · exact h
    have htail := ih (l.filter (fun c => !(categoryName c = k))) hnd2 hcov2
    exact (htail.append_left _).trans (List.filter_append_perm _ l)

/-- Filtering one category out of another category group: the same group
when the keys agree, empty otherwise. -/
theorem filter_filter_category (l : List CommandItem) (k k2 : String) :
    (l.filter (fun c => categoryName c = k2)).filter
        (fun c => categoryName c = k) =
      if k2 = k then l.filter (fun c => categoryName c = k) else [] := by
  rcases eq_or_ne k2 k with h | h
  · subst h
    rw [List.filter_filter]
    simp
  · rw [if_neg h, List.filter_filter]
    apply List.filter_eq_nil_iff.mpr
    intro c hc
    simp only [Bool.and_eq_true, decide_eq_true_eq, not_and]
    intro h1 h2
    exact h (h2.symm.trans h1)

/-- Flattening a key-indexed family that is nonempty at a single key. -/
theorem flatten_single_key (ks : List String) (X : List CommandItem)
    (k : String) (hnd : ks.Nodup) :
    ((ks.map (fun k2 => if k2 = k then X else [])).flatten) =
      if k ∈ ks then X else [] := by
  induction ks with
  | nil => simp
  | cons k2 ks ih =>
    have hnd2 : ks.Nodup := (List.nodup_cons.mp hnd).2
    have hk2 : k2 ∉ ks := (List.nodup_cons.mp hnd).1
    simp only [List.map_cons, List.flatten_cons, ih hnd2]
    rcases eq_or_ne k2 k with h | h
    · subst h
      simp [hk2]
    · simp [h, Ne.symm h]

/-- Filtering the flattened list by a category reproduces the input filter:
the relative order within each category matches the input order. -/
theorem flattened_filter_eq (cmds : List CommandItem) (k : String) :
    (flattenedCommands cmds).filter (fun c => categoryName c = k) =
      cmds.filter (fun c => categoryName c = k) := by
  rw [flattenedCommands_eq, List.filter_flatten, List.map_map]
  have hmap : ∀ k2 ∈ jsKeys ((buildGroups cmds).map Prod.fst),
      (List.filter (fun c => categoryName c = k) ∘
        fun k2 => lookupGroup (buildGroups cmds) k2) k2 =
      (fun k2 => if k2 = k then
        cmds.filter (fun c => categoryName c = k) else []) k2 := by
    intro k2 _
    simp only [Function.comp_apply]
    rw [lookupGroup_buildGroups, filter_filter_category]
  rw [List.map_congr_left hmap]
  have hndkeys : ((buildGroups cmds).map Prod.fst).Nodup := by
    rw [keys_buildGroups]
    exact specFirstSeen_nodup _ _ (by simp)
  have hndjs : (jsKeys ((buildGroups cmds).map Prod.fst)).Nodup :=
    (jsKeys_perm _).nodup_iff.mpr hndkeys
  rw [flatten_single_key _ _ _ hndjs]
  by_cases hm : k ∈ jsKeys ((buildGroups cmds).map Prod.fst)
  · rw [if_pos hm]
  · rw [if_neg hm]
    symm
    apply List.filter_eq_nil_iff.mpr
    intro c hc
    simp only [decide_eq_true_eq]
    intro hck
    apply hm
    apply (jsKeys_perm _).mem_iff.mpr
    rw [keys_buildGroups]
    exact mem_specFirstSeen _ _ _ (Or.inl (hck ▸ List.mem_map_of_mem _ hc))

/-- A command whose category is the string "1". -/
def cmdCatOne : CommandItem := ⟨2, "one", "one", none, none, some "1", 21⟩

/-- A command whose category is the string "0". -/
def cmdCatZero : CommandItem := ⟨3, "zero", "zero", none, none, some "0", 22⟩

/-- Claim C5 (counterexample): with categories named "1" then "0" (array
index strings), Object.keys enumerates them numerically, so the grouped keys
come out as "0", "1" although first-seen order is "1", "0", and the
flattened list is not the first-seen concatenation. -/
theorem numeric_categories_reorder_cex :
    (groupedCommands [cmdCatOne, cmdCatZero]).map Prod.fst = ["0", "1"] ∧
    specFirstSeen [] ([cmdCatOne, cmdCatZero].map categoryName) = ["1", "0"] ∧
    flattenedCommands [cmdCatOne, cmdCatZero] = [cmdCatZero, cmdCatOne] ∧
    ¬(flattenedCommands [cmdCatOne, cmdCatZero] = [cmdCatOne, cmdCatZero]) := by
  decide

/-- Claim C5 (amended): the groups record maps every category name (missing
and empty-string categories defaulting to "Other") to its commands in input
order; the grouped view enumerates the first-seen category sequence
reordered by the JS Object.keys rule (array-index names first, ascending);
the flattened list is a permutation of the input; and within each category
the flattened order matches the input order. -/
theorem grouping_order_amended (cmds : List CommandItem) :
    (∀ k, lookupGroup (buildGroups cmds) k =
      cmds.filter (fun c => categoryName c = k)) ∧
    (groupedCommands cmds).map Prod.fst =
      jsKeys (specFirstSeen [] (cmds.map categoryName)) ∧
    List.Perm (flattenedCommands cmds) cmds ∧
    (∀ k, (flattenedCommands cmds).filter (fun c => categoryName c = k) =
      cmds.filter (fun c => categoryName c = k)) := by
  refine ⟨lookupGroup_buildGroups cmds, ?_, ?_, flattened_filter_eq cmds⟩
  · rw [groupedCommands, List.map_map, keys_buildGroups]
    have hid : (Prod.fst ∘ fun k => (k, lookupGroup (buildGroups cmds) k)) =
        id := rfl
    rw [hid, List.map_id]
  · rw [flattenedCommands_eq]
    have h1 : ∀ k2 ∈ jsKeys ((buildGroups cmds).map Prod.fst),
        (fun k => lookupGroup (buildGroups cmds) k) k2 =
        (fun k => cmds.filter (fun c => categoryName c = k)) k2 :=
      fun k2 _ => lookupGroup_buildGroups cmds k2
    rw [List.map_congr_left h1]
    refine (flatten_map_perm _ _ _
      (jsKeys_perm ((buildGroups cmds).map Prod.fst))).trans ?_
    rw [keys_buildGroups]
    exact flatten_filter_perm _ cmds (specFirstSeen_nodup _ _ (by simp))
      (fun c hc => mem_specFirstSeen _ _ _
        (Or.inl (List.mem_map_of_mem _ hc)))

/-- A found indexOf result points at an element whose reference matches the
searched one. -/
theorem indexOfRefAux_eq_some (l : List CommandItem) (r : Nat) (base n : Nat)
    (h : indexOfRefAux l r base = (n : Int)) :
    ∃ k, n = base + k ∧ ∃ hk : k < l.length, (l.get ⟨k, hk⟩).ref = r := by
  induction l generalizing base with
  | nil =>
    exfalso
    simp only [indexOfRefAux] at h
    omega
  | cons c rest ih =>
    simp only [indexOfRefAux] at h
    by_cases hc : c.ref = r
    · rw [if_pos hc] at h
      have hbn : base = n := by exact_mod_cast h
      exact ⟨0, by omega, ⟨by simp, hc⟩⟩
    · rw [if_neg hc] at h
      obtain ⟨k, hkn, hkl, hget⟩ := ih (base + 1) h
      exact ⟨k + 1, by omega, ⟨by simpa using hkl, hget⟩⟩

/-- When references are pairwise distinct, indexOf of the element at a
position returns exactly that position. -/
theorem indexOfRefAux_self (l : List CommandItem) (r : Nat) (base j : Nat)
    (hnd : (l.map CommandItem.ref).Nodup) (hj : j < l.length)
    (hr : (l.get ⟨j, hj⟩).ref = r) :
    indexOfRefAux l r base = ((base + j : Nat) : Int) := by
  induction l generalizing base j with
  | nil => exact absurd hj (by simp)
  | cons c rest ih =>
    cases j with
    | zero =>
      have hcr : c.ref = r := hr
      simp [indexOfRefAux, hcr]
    | succ k =>
      have hk : k < rest.length := by simpa using hj
      have hget : (rest.get ⟨k, hk⟩).ref = r := hr
      have hndc : c.ref ∉ rest.map CommandItem.ref ∧
          (rest.map CommandItem.ref).Nodup := by
        simpa [List.nodup_cons] using hnd
      have hcr : c.ref ≠ r := by
        intro hcr
        apply hndc.1
        rw [hcr, ← hget]
        exact List.mem_map_of_mem _ (rest.get_mem _ _)
      simp only [indexOfRefAux, if_neg hcr]
      rw [ih (base + 1) k hndc.2 hk hget]
      congr 1
      omega

/-- The earlier of two commands that share the id "dup". -/
def cmdDupEarly : CommandItem := ⟨4, "dup", "first", none, none, none, 31⟩

/-- The later of two commands that share the id "dup": a distinct object
(different reference) with the same id. -/
def cmdDupLate : CommandItem := ⟨5, "dup", "second", none, none, none, 32⟩

/-- Claim C8 (counterexample): two distinct command entries sharing an id
are NOT confused by the flattened-index lookup: indexOf compares object
references, so looking up the later duplicate yields its own index 1, not
the index 0 of the earlier one, and hovering it selects index 1. -/
theorem duplicate_id_lookup_unambiguous_cex :
    cmdDupEarly.id = cmdDupLate.id ∧
    ¬(cmdDupEarly = cmdDupLate) ∧
    flattenedCommands [cmdDupEarly, cmdDupLate] = [cmdDupEarly, cmdDupLate] ∧
    jsIndexOf (flattenedCommands [cmdDupEarly, cmdDupLate]) cmdDupLate = 1 ∧
    ¬(jsIndexOf (flattenedCommands [cmdDupEarly, cmdDupLate]) cmdDupLate = 0) ∧
    (handleMouseEnter [cmdDupEarly, cmdDupLate] stateOpen
      cmdDupLate).selectedIndex = 1 := by
  decide

/-- Claim C8 (amended): the hover lookup compares object identity, not ids.
For any two distinct entries (different references) of the flattened list
that share an id, at positions i < j, hovering the later one never sets
selectedIndex to i; and whenever the references in the list are pairwise
distinct (the normal case of distinct objects) it sets exactly j, so
duplicate ids cause no ambiguity. -/
theorem index_lookup_by_reference (cmds : List CommandItem) (s : PaletteState)
    (i j : Nat)
    (hi : i < (flattenedCommands cmds).length)
    (hj : j < (flattenedCommands cmds).length)
    (hij : i < j)
    (hid : ((flattenedCommands cmds).get ⟨i, hi⟩).id =
      ((flattenedCommands cmds).get ⟨j, hj⟩).id)
    (href : ((flattenedCommands cmds).get ⟨i, hi⟩).ref ≠
      ((flattenedCommands cmds).get ⟨j, hj⟩).ref)
    (hkb : s.isKeyboardNavigation = false) :
    (handleMouseEnter cmds s
      ((flattenedCommands cmds).get ⟨j, hj⟩)).selectedIndex ≠ (i : Int) ∧
    (((flattenedCommands cmds).map CommandItem.ref).Nodup →
      (handleMouseEnter cmds s
        ((flattenedCommands cmds).get ⟨j, hj⟩)).selectedIndex = (j : Int)) := by
  have hme : (handleMouseEnter cmds s
      ((flattenedCommands cmds).get ⟨j, hj⟩)).selectedIndex =
      jsIndexOf (flattenedCommands cmds)
        ((flattenedCommands cmds).get ⟨j, hj⟩) := by
    simp [handleMouseEnter, hkb]
  constructor
  · rw [hme]
    intro hcontra
    obtain ⟨k, hk0, hkl, hget⟩ :=
      indexOfRefAux_eq_some (flattenedCommands cmds) _ 0 i hcontra
    have hki : k = i := by omega
    subst hki
    exact href (by exact hget)
  · intro hnd
    rw [hme]
    have hself := indexOfRefAux_self (flattenedCommands cmds)
      ((flattenedCommands cmds).get ⟨j, hj⟩).ref 0 j hnd hj rfl
    simpa [jsIndexOf] using hself

/-- Claim C8 (witness): the amended theorem applied to the concrete
duplicate-id pair: hovering the later duplicate selects index 1, never the
index 0 of the earlier entry. -/
theorem index_lookup_by_reference_witness :
    (handleMouseEnter [cmdDupEarly, cmdDupLate] stateOpen
      ((flattenedCommands [cmdDupEarly, cmdDupLate]).get
        ⟨1, by decide⟩)).selectedIndex ≠ (0 : Int) ∧
    (handleMouseEnter [cmdDupEarly, cmdDupLate] stateOpen
      ((flattenedCommands [cmdDupEarly, cmdDupLate]).get
        ⟨1, by decide⟩)).selectedIndex = (1 : Int) :=
  ⟨(index_lookup_by_reference [cmdDupEarly, cmdDupLate] stateOpen 0 1
      (by decide) (by decide) (by decide) (by decide) (by decide) rfl).1,
    (index_lookup_by_reference [cmdDupEarly, cmdDupLate] stateOpen 0 1
      (by decide) (by decide) (by decide) (by decide) (by decide) rfl).2
      (by decide)⟩
